import Mathlib

/-!
Verification of the BESS arbitrage model (src/BESS_Full_Portfolio.py).

The program generates an hourly electricity price series (diurnal base curve
plus seeded Gaussian noise plus Bernoulli spikes, clamped at zero), builds a
linear program over charge/discharge/state-of-charge variables with an
energy-balance recurrence and a degradation cost on discharged energy, solves
it, and post-processes the solution into per-hour profit and summary metrics.

The embedding below translates the model-building code (lines 60-81), the
price construction (lines 48-54) and the post-processing profit formula
(line 97) into Lean over the reals.  A schedule is three real-valued
time-indexed sequences; `Feasible` is the constraint set of the built LP
(initial condition, balance recurrence, variable bounds); `objective` is the
maximised expression of lines 69-74; `IsOptimal` says a schedule is feasible
and dominates every feasible schedule.
-/

namespace BESS

/-- The numeric configuration fields read from the sidebar:
BATTERY_CAPACITY, MAX_POWER, EFFICIENCY (already divided by 100),
DEG_COST. -/
structure Config where
  capacity : ℝ
  maxPower : ℝ
  efficiency : ℝ
  degCost : ℝ

/-- A candidate assignment to the decision variables of the LP:
Charge and Discharge indexed by hour 0..H-1, SoC indexed by 0..H. -/
structure Schedule where
  charge : ℕ → ℝ
  discharge : ℕ → ℝ
  soc : ℕ → ℝ

/-- The balance constraint added for hour t (line 79 of the source):
soc[t+1] == soc[t] + charge[t]*EFFICIENCY - discharge[t]/EFFICIENCY. -/
def balanceAt (cfg : Config) (x : Schedule) (t : ℕ) : Prop :=
  x.soc (t + 1) = x.soc t + x.charge t * cfg.efficiency - x.discharge t / cfg.efficiency

/-- The list of equality constraints the model builder adds to the problem
(lines 77-79): the initial condition soc[0] == 0 followed by one balance
constraint per hour.  Built unconditionally for every configuration. -/
def dispatchConstraints (H : ℕ) (cfg : Config) (x : Schedule) : List Prop :=
  (x.soc 0 = 0) :: (List.range H).map (fun t => balanceAt cfg x t)

/-- The full feasible set of the built LP: the equality constraints of
lines 77-79 together with the variable bounds of lines 63-65
(charge, discharge in [0, MAX_POWER]; SoC in [0, BATTERY_CAPACITY]). -/
def Feasible (H : ℕ) (cfg : Config) (x : Schedule) : Prop :=
  x.soc 0 = 0 ∧
  (∀ t, t < H → balanceAt cfg x t) ∧
  (∀ t, t < H → 0 ≤ x.charge t ∧ x.charge t ≤ cfg.maxPower) ∧
  (∀ t, t < H → 0 ≤ x.discharge t ∧ x.discharge t ≤ cfg.maxPower) ∧
  (∀ t, t ≤ H → 0 ≤ x.soc t ∧ x.soc t ≤ cfg.capacity)

/-- The maximised objective of lines 69-74:
sum over t of price[t]*Discharge[t] - price[t]*Charge[t] - Discharge[t]*DEG_COST. -/
def objective (H : ℕ) (cfg : Config) (price : ℕ → ℝ) (x : Schedule) : ℝ :=
  ∑ t ∈ Finset.range H,
    (price t * x.discharge t - price t * x.charge t - x.discharge t * cfg.degCost)

/-- A schedule the solver may return on status Optimal: feasible and
attaining the maximum of the objective over the feasible set. -/
def IsOptimal (H : ℕ) (cfg : Config) (price : ℕ → ℝ) (x : Schedule) : Prop :=
  Feasible H cfg x ∧
  ∀ y, Feasible H cfg y → objective H cfg price y ≤ objective H cfg price x

/-- The per-hour realized profit computed by the post-processor (line 97):
pnl = d*price[t] - c*price[t] - d*DEG_COST. -/
def pnl (cfg : Config) (price : ℕ → ℝ) (x : Schedule) (t : ℕ) : ℝ :=
  x.discharge t * price t - x.charge t * price t - x.discharge t * cfg.degCost

/-- Total discharged energy over the horizon (the quantity summed at
line 108 for the cycle count). -/
def totalDischarge (H : ℕ) (x : Schedule) : ℝ :=
  ∑ t ∈ Finset.range H, x.discharge t

/-- Total charged energy over the horizon. -/
def totalCharge (H : ℕ) (x : Schedule) : ℝ :=
  ∑ t ∈ Finset.range H, x.charge t

/-- The price-dependent part of the objective, without the degradation
term: sum of price[t]*Discharge[t] - price[t]*Charge[t]. -/
def revenue (H : ℕ) (price : ℕ → ℝ) (x : Schedule) : ℝ :=
  ∑ t ∈ Finset.range H, (price t * x.discharge t - price t * x.charge t)

/-- The deterministic diurnal base curve of line 49:
50 + 30*sin((hour_of_day - 6)*pi/12) with hour_of_day = t mod 24. -/
noncomputable def basePrice (t : ℕ) : ℝ :=
  50 + 30 * Real.sin ((((t % 24 : ℕ) : ℝ) - 6) * Real.pi / 12)

/-- The final price of line 54 for a given realisation of the noise and
spike draws: np.maximum(base_price + noise + spikes, 0). -/
noncomputable def genPrice (noise spike : ℕ → ℝ) (t : ℕ) : ℝ :=
  max (basePrice t + noise t + spike t) 0

/-- The price series as a function of the seed: the noise and spike
sequences are drawn from a generator seeded at line 36, so each is a
deterministic function of the seed, and the series is obtained by feeding
those draws to the clamped price formula of line 54. -/
noncomputable def runPriceSeries (noiseOfSeed spikeOfSeed : ℕ → ℕ → ℝ) (seed : ℕ) : ℕ → ℝ :=
  genPrice (noiseOfSeed seed) (spikeOfSeed seed)

/-- The configuration with its degradation cost replaced, all other fields
held fixed. -/
def withDeg (cfg : Config) (d : ℝ) : Config :=
  { cfg with degCost := d }

/-- The all-zero schedule (never charge, never discharge, empty battery). -/
def zeroSched : Schedule :=
  ⟨fun _ => 0, fun _ => 0, fun _ => 0⟩

/-- The 3-hour toy configuration of the spec: capacity 10, maxPower 5,
efficiency 1, degradation cost 0. -/
def cfg1 : Config :=
  ⟨10, 5, 1, 0⟩

/-- The toy price series [10, 100, 10]. -/
def price1 : ℕ → ℝ :=
  fun t => if t = 1 then 100 else 10

/-- The expected optimal toy schedule: charge 5 at t=0, discharge 5 at t=1,
idle at t=2; SoC [0, 5, 0, 0]. -/
def sched1 : Schedule :=
  ⟨fun t => if t = 0 then 5 else 0,
   fun t => if t = 1 then 5 else 0,
   fun t => if t = 1 then 5 else 0⟩

lemma sched1_feasible : Feasible 3 cfg1 sched1 := by
  refine ⟨rfl, ?_, ?_, ?_, ?_⟩
  · intro t ht
    interval_cases t <;> simp [balanceAt, sched1, cfg1]
  · intro t ht
    interval_cases t <;> norm_num [sched1, cfg1]
  · intro t ht
    interval_cases t <;> norm_num [sched1, cfg1]
  · intro t ht
    interval_cases t <;> norm_num [sched1, cfg1]

lemma sched1_objective : objective 3 cfg1 price1 sched1 = 450 := by
  simp [objective, Finset.sum_range_succ, sched1, price1, cfg1]
  norm_num

lemma toy_objective_le (y : Schedule) (hy : Feasible 3 cfg1 y) :
    objective 3 cfg1 price1 y ≤ 450 := by
  obtain ⟨h0, hb, hc, hd, hs⟩ := hy
  have b0 := hb 0 (by norm_num)
  have b1 := hb 1 (by norm_num)
  have b2 := hb 2 (by norm_num)
  simp [balanceAt, cfg1] at b0 b1 b2
  have hc0 := hc 0 (by norm_num)
  have hd0 := hd 0 (by norm_num)
  have hs1 := hs 1 (by norm_num)
  have hs2 := hs 2 (by norm_num)
  have hs3 := hs 3 (by norm_num)
  simp [cfg1] at hc0 hd0 hs1 hs2 hs3
  simp [objective, Finset.sum_range_succ, price1, cfg1]
  linarith [h0, b0, b1, b2, hc0.1, hc0.2, hd0.1, hs1.1, hs2.1, hs3.1]

lemma sched1_optimal : IsOptimal 3 cfg1 price1 sched1 := by
  refine ⟨sched1_feasible, fun y hy => ?_⟩
  rw [sched1_objective]
  exact toy_objective_le y hy

/-- C1: on the 3-hour toy instance (capacity 10, maxPower 5, efficiency 1,
degradation cost 0, prices [10, 100, 10]) the built LP has an optimal
solution that charges 5 MW at t=0 (SoC[1]=5), discharges 5 MW at t=1
(SoC[2]=0), idles at t=2, with objective value 450. -/
theorem spec_C1_toy_instance_optimal :
    IsOptimal 3 cfg1 price1 sched1 ∧
    sched1.charge 0 = 5 ∧ sched1.soc 1 = 5 ∧
    sched1.discharge 1 = 5 ∧ sched1.soc 2 = 0 ∧
    sched1.charge 2 = 0 ∧ sched1.discharge 2 = 0 ∧
    objective 3 cfg1 price1 sched1 = 450 := by
  refine ⟨sched1_optimal, ?_, ?_, ?_, ?_, ?_, ?_, sched1_objective⟩ <;> simp [sched1]

lemma soc_telescope (H : ℕ) (cfg : Config) (x : Schedule)
    (h0 : x.soc 0 = 0) (hb : ∀ t, t < H → balanceAt cfg x t) :
    x.soc H = cfg.efficiency * totalCharge H x - totalDischarge H x / cfg.efficiency := by
  induction H with
  | zero => simp [totalCharge, totalDischarge, h0]
  | succ n ih =>
    have hb' : ∀ t, t < n → balanceAt cfg x t := fun t ht => hb t (Nat.lt_succ_of_lt ht)
    have hstep := hb n (Nat.lt_succ_self n)
    unfold balanceAt at hstep
    have hn := ih hb'
    rw [hstep, hn]
    simp only [totalCharge, totalDischarge, Finset.sum_range_succ]
    ring

lemma sum_charge_nonneg (H : ℕ) (cfg : Config) (x : Schedule)
    (hc : ∀ t, t < H → 0 ≤ x.charge t ∧ x.charge t ≤ cfg.maxPower) :
    0 ≤ totalCharge H x :=
  Finset.sum_nonneg fun t ht => (hc t (Finset.mem_range.mp ht)).1

lemma sum_discharge_nonneg (H : ℕ) (cfg : Config) (x : Schedule)
    (hd : ∀ t, t < H → 0 ≤ x.discharge t ∧ x.discharge t ≤ cfg.maxPower) :
    0 ≤ totalDischarge H x :=
  Finset.sum_nonneg fun t ht => (hd t (Finset.mem_range.mp ht)).1

lemma discharge_le_eff_sq_charge (H : ℕ) (cfg : Config) (x : Schedule)
    (heff : 0 < cfg.efficiency) (hx : Feasible H cfg x) :
    totalDischarge H x ≤ cfg.efficiency ^ 2 * totalCharge H x := by
  obtain ⟨h0, hb, hc, hd, hs⟩ := hx
  have htel := soc_telescope H cfg x h0 hb
  have hsocH : 0 ≤ x.soc H := (hs H le_rfl).1
  have hdiv : totalDischarge H x / cfg.efficiency ≤ cfg.efficiency * totalCharge H x := by
    linarith
  have := (div_le_iff₀ heff).mp hdiv
  nlinarith [this]

/-- C2: every schedule a successful (Optimal) solve returns satisfies the
initial condition SoC[0] = 0 and the exact energy balance
SoC[t+1] = SoC[t] + charge[t]*efficiency - discharge[t]/efficiency for every
t below the horizon (exact equality, hence within the 1e-6 tolerance). -/
theorem spec_C2_balance_invariant (H : ℕ) (cfg : Config) (price : ℕ → ℝ)
    (x : Schedule) (hx : IsOptimal H cfg price x) :
    x.soc 0 = 0 ∧
    ∀ t, t < H →
      x.soc (t + 1) = x.soc t + x.charge t * cfg.efficiency - x.discharge t / cfg.efficiency :=
  ⟨hx.1.1, fun t ht => hx.1.2.1 t ht⟩

/-- Witness for C2 at the toy instance. -/
theorem spec_C2_balance_invariant_witness :
    sched1.soc 0 = 0 ∧
    ∀ t, t < 3 →
      sched1.soc (t + 1) =
        sched1.soc t + sched1.charge t * cfg1.efficiency - sched1.discharge t / cfg1.efficiency :=
  spec_C2_balance_invariant 3 cfg1 price1 sched1 sched1_optimal

/-- C3: every schedule a successful (Optimal) solve returns satisfies the
variable bounds of lines 63-65: charge and discharge in [0, maxPower] for
every hour, and SoC in [0, capacity] for every index up to the horizon. -/
theorem spec_C3_bounds_invariant (H : ℕ) (cfg : Config) (price : ℕ → ℝ)
    (x : Schedule) (hx : IsOptimal H cfg price x) :
    (∀ t, t < H → 0 ≤ x.charge t ∧ x.charge t ≤ cfg.maxPower) ∧
    (∀ t, t < H → 0 ≤ x.discharge t ∧ x.discharge t ≤ cfg.maxPower) ∧
    (∀ t, t ≤ H → 0 ≤ x.soc t ∧ x.soc t ≤ cfg.capacity) :=
  ⟨hx.1.2.2.1, hx.1.2.2.2.1, hx.1.2.2.2.2⟩

/-- Witness for C3 at the toy instance. -/
theorem spec_C3_bounds_invariant_witness :
    (∀ t, t < 3 → 0 ≤ sched1.charge t ∧ sched1.charge t ≤ cfg1.maxPower) ∧
    (∀ t, t < 3 → 0 ≤ sched1.discharge t ∧ sched1.discharge t ≤ cfg1.maxPower) ∧
    (∀ t, t ≤ 3 → 0 ≤ sched1.soc t ∧ sched1.soc t ≤ cfg1.capacity) :=
  spec_C3_bounds_invariant 3 cfg1 price1 sched1 sched1_optimal

/-- C4: for every schedule (in particular the one the solver returns), the
sum of the per-hour realized profits computed by the post-processor at
line 97 equals the objective of lines 69-74 exactly, so it equals the
solver's reported objective value. -/
theorem spec_C4_pnl_matches_objective (H : ℕ) (cfg : Config) (price : ℕ → ℝ)
    (x : Schedule) :
    ∑ t ∈ Finset.range H, pnl cfg price x t = objective H cfg price x := by
  unfold pnl objective
  exact Finset.sum_congr rfl fun t _ => by ring

/-- C10: any schedule satisfying the built constraints keeps total
discharged energy below the squared efficiency times total charged energy,
and a schedule that never charges never discharges. -/
theorem spec_C10_discharge_bounded_by_charge (H : ℕ) (cfg : Config)
    (x : Schedule) (heff : 0 < cfg.efficiency) (hx : Feasible H cfg x) :
    totalDischarge H x ≤ cfg.efficiency ^ 2 * totalCharge H x ∧
    ((∀ t, t < H → x.charge t = 0) → ∀ t, t < H → x.discharge t = 0) := by
  refine ⟨discharge_le_eff_sq_charge H cfg x heff hx, fun hzero t ht => ?_⟩
  have hC : totalCharge H x = 0 :=
    Finset.sum_eq_zero fun u hu => hzero u (Finset.mem_range.mp hu)
  have hmain := discharge_le_eff_sq_charge H cfg x heff hx
  rw [hC, mul_zero] at hmain
  have hnn : ∀ u ∈ Finset.range H, 0 ≤ x.discharge u :=
    fun u hu => (hx.2.2.2.1 u (Finset.mem_range.mp hu)).1
  have hD : totalDischarge H x = 0 :=
    le_antisymm hmain (Finset.sum_nonneg hnn)
  have := (Finset.sum_eq_zero_iff_of_nonneg hnn).mp hD
  exact this t (Finset.mem_range.mpr ht)

/-- Witness for C10 at the toy instance. -/
theorem spec_C10_discharge_bounded_by_charge_witness :
    totalDischarge 3 sched1 ≤ cfg1.efficiency ^ 2 * totalCharge 3 sched1 ∧
    ((∀ t, t < 3 → sched1.charge t = 0) → ∀ t, t < 3 → sched1.discharge t = 0) :=
  spec_C10_discharge_bounded_by_charge 3 cfg1 sched1 (by norm_num [cfg1]) sched1_feasible

lemma zero_feasible (H : ℕ) (cfg : Config)
    (hmp : 0 ≤ cfg.maxPower) (hcap : 0 ≤ cfg.capacity) :
    Feasible H cfg zeroSched := by
  refine ⟨rfl, ?_, ?_, ?_, ?_⟩ <;> intro t ht <;>
    simp [balanceAt, zeroSched, hmp, hcap]

lemma zero_objective (H : ℕ) (cfg : Config) (price : ℕ → ℝ) :
    objective H cfg price zeroSched = 0 := by
  simp [objective, zeroSched]

lemma objective_nonpos_of_deg_gt_spread (H : ℕ) (cfg : Config) (price : ℕ → ℝ)
    (lo hi : ℝ) (heff : 0 < cfg.efficiency) (heff1 : cfg.efficiency ≤ 1)
    (hlo : 0 ≤ lo) (hp : ∀ t, t < H → lo ≤ price t ∧ price t ≤ hi)
    (hdeg : hi - lo < cfg.degCost)
    (x : Schedule) (hx : Feasible H cfg x) :
    objective H cfg price x ≤ 0 := by
  have hC : 0 ≤ totalCharge H x := sum_charge_nonneg H cfg x hx.2.2.1
  have hD : 0 ≤ totalDischarge H x := sum_discharge_nonneg H cfg x hx.2.2.2.1
  have hDC := discharge_le_eff_sq_charge H cfg x heff hx
  have hD_le_C : totalDischarge H x ≤ totalCharge H x := by
    have heff2 : cfg.efficiency ^ 2 ≤ 1 := by nlinarith
    nlinarith
  have hterm : objective H cfg price x ≤
      ∑ t ∈ Finset.range H,
        (hi * x.discharge t - lo * x.charge t - x.discharge t * cfg.degCost) := by
    refine Finset.sum_le_sum fun t ht => ?_
    have htH := Finset.mem_range.mp ht
    have hpd := hp t htH
    have hcd := hx.2.2.1 t htH
    have hdd := hx.2.2.2.1 t htH
    have h1 : price t * x.discharge t ≤ hi * x.discharge t :=
      mul_le_mul_of_nonneg_right hpd.2 hdd.1
    have h2 : lo * x.charge t ≤ price t * x.charge t :=
      mul_le_mul_of_nonneg_right hpd.1 hcd.1
    linarith
  have hsum : ∑ t ∈ Finset.range H,
      (hi * x.discharge t - lo * x.charge t - x.discharge t * cfg.degCost)
      = hi * totalDischarge H x - lo * totalCharge H x
        - totalDischarge H x * cfg.degCost := by
    simp [totalDischarge, totalCharge, Finset.sum_sub_distrib,
      Finset.mul_sum, Finset.sum_mul]
  rw [hsum] at hterm
  have hwear : 0 ≤ cfg.degCost - (hi - lo) := by linarith
  have hprod : 0 ≤ totalDischarge H x * (cfg.degCost - (hi - lo)) :=
    mul_nonneg hD hwear
  have hloD : lo * totalDischarge H x ≤ lo * totalCharge H x :=
    mul_le_mul_of_nonneg_left hD_le_C hlo
  nlinarith

lemma zero_optimal_of_deg_gt_spread (H : ℕ) (cfg : Config) (price : ℕ → ℝ)
    (lo hi : ℝ) (heff : 0 < cfg.efficiency) (heff1 : cfg.efficiency ≤ 1)
    (hmp : 0 ≤ cfg.maxPower) (hcap : 0 ≤ cfg.capacity)
    (hlo : 0 ≤ lo) (hp : ∀ t, t < H → lo ≤ price t ∧ price t ≤ hi)
    (hdeg : hi - lo < cfg.degCost) :
    IsOptimal H cfg price zeroSched := by
  refine ⟨zero_feasible H cfg hmp hcap, fun y hy => ?_⟩
  rw [zero_objective]
  exact objective_nonpos_of_deg_gt_spread H cfg price lo hi heff heff1 hlo hp hdeg y hy

/-- C5: whenever every price of the series lies between lo and hi with
lo nonnegative and the degradation cost exceeds the spread hi - lo (in
particular when it exceeds max price minus min price), the all-zero
schedule is optimal for the built LP and the optimal objective value
is 0. -/
theorem spec_C5_degenerate_all_zero (H : ℕ) (cfg : Config) (price : ℕ → ℝ)
    (lo hi : ℝ) (heff : 0 < cfg.efficiency) (heff1 : cfg.efficiency ≤ 1)
    (hmp : 0 ≤ cfg.maxPower) (hcap : 0 ≤ cfg.capacity)
    (hlo : 0 ≤ lo) (hp : ∀ t, t < H → lo ≤ price t ∧ price t ≤ hi)
    (hdeg : hi - lo < cfg.degCost) :
    IsOptimal H cfg price zeroSched ∧ objective H cfg price zeroSched = 0 :=
  ⟨zero_optimal_of_deg_gt_spread H cfg price lo hi heff heff1 hmp hcap hlo hp hdeg,
   zero_objective H cfg price⟩

/-- The configuration used for the degenerate-case witness: wear cost 5
against a flat price 10, so the spread 0 is below the wear cost. -/
def cfgFlat : Config :=
  ⟨10, 5, 1, 5⟩

/-- Witness for C5: flat price 10 over one hour with degradation cost 5. -/
theorem spec_C5_degenerate_all_zero_witness :
    IsOptimal 1 cfgFlat (fun _ => 10) zeroSched ∧
    objective 1 cfgFlat (fun _ => 10) zeroSched = 0 :=
  spec_C5_degenerate_all_zero 1 cfgFlat (fun _ => 10) 10 10
    (by norm_num [cfgFlat]) (by norm_num [cfgFlat]) (by norm_num [cfgFlat])
    (by norm_num [cfgFlat]) (by norm_num)
    (fun t _ => ⟨le_rfl, le_rfl⟩) (by norm_num [cfgFlat])

lemma feasible_withDeg (H : ℕ) (cfg : Config) (d : ℝ) (x : Schedule) :
    Feasible H (withDeg cfg d) x ↔ Feasible H cfg x := by
  simp [Feasible, balanceAt, withDeg]

lemma objective_withDeg (H : ℕ) (cfg : Config) (d : ℝ) (price : ℕ → ℝ)
    (x : Schedule) :
    objective H (withDeg cfg d) price x
      = revenue H price x - totalDischarge H x * d := by
  simp [objective, revenue, totalDischarge, withDeg,
    Finset.sum_sub_distrib, Finset.sum_mul]

/-- Amended C6: for strictly increasing degradation costs d1 < d2 with all
other configuration fields and the price series fixed, every optimal
solution under d2 discharges no more in total than every optimal solution
under d1. -/
theorem spec_C6_discharge_monotone_amended (H : ℕ) (cfg : Config)
    (price : ℕ → ℝ) (d1 d2 : ℝ) (x1 x2 : Schedule) (hd : d1 < d2)
    (h1 : IsOptimal H (withDeg cfg d1) price x1)
    (h2 : IsOptimal H (withDeg cfg d2) price x2) :
    totalDischarge H x2 ≤ totalDischarge H x1 := by
  have f1 : Feasible H cfg x1 := (feasible_withDeg H cfg d1 x1).mp h1.1
  have f2 : Feasible H cfg x2 := (feasible_withDeg H cfg d2 x2).mp h2.1
  have a := h1.2 x2 ((feasible_withDeg H cfg d1 x2).mpr f2)
  have b := h2.2 x1 ((feasible_withDeg H cfg d2 x1).mpr f1)
  rw [objective_withDeg, objective_withDeg] at a b
  by_contra hlt
  push_neg at hlt
  nlinarith [mul_pos (sub_pos.mpr hd) (sub_pos.mpr hlt)]

/-- Witness for the amended C6: wear costs 1 < 2 against a flat price 10
over one hour, where the zero schedule is optimal under both costs. -/
theorem spec_C6_discharge_monotone_amended_witness :
    totalDischarge 1 zeroSched ≤ totalDischarge 1 zeroSched :=
  spec_C6_discharge_monotone_amended 1 cfgFlat (fun _ => 10) 1 2
    zeroSched zeroSched (by norm_num)
    (zero_optimal_of_deg_gt_spread 1 (withDeg cfgFlat 1) (fun _ => 10) 10 10
      (by norm_num [withDeg, cfgFlat]) (by norm_num [withDeg, cfgFlat])
      (by norm_num [withDeg, cfgFlat]) (by norm_num [withDeg, cfgFlat])
      (by norm_num) (fun t _ => ⟨le_rfl, le_rfl⟩) (by norm_num [withDeg, cfgFlat]))
    (zero_optimal_of_deg_gt_spread 1 (withDeg cfgFlat 2) (fun _ => 10) 10 10
      (by norm_num [withDeg, cfgFlat]) (by norm_num [withDeg, cfgFlat])
      (by norm_num [withDeg, cfgFlat]) (by norm_num [withDeg, cfgFlat])
      (by norm_num) (fun t _ => ⟨le_rfl, le_rfl⟩) (by norm_num [withDeg, cfgFlat]))

/-- A flat price series at 10, used to exhibit tied optima. -/
def priceFlat : ℕ → ℝ :=
  fun _ => 10

lemma flat_deg0_objective_nonpos (y : Schedule)
    (hy : Feasible 2 (withDeg cfg1 0) y) :
    objective 2 (withDeg cfg1 0) priceFlat y ≤ 0 := by
  obtain ⟨h0, hb, hc, hd, hs⟩ := hy
  have b0 := hb 0 (by norm_num)
  have b1 := hb 1 (by norm_num)
  simp [balanceAt, withDeg, cfg1] at b0 b1
  have hs2 := hs 2 (by norm_num)
  simp [withDeg, cfg1] at hs2
  simp [objective, Finset.sum_range_succ, priceFlat, withDeg, cfg1]
  linarith [h0, b0, b1, hs2.1]

lemma sched1_feasible_two : Feasible 2 (withDeg cfg1 0) sched1 := by
  refine ⟨rfl, ?_, ?_, ?_, ?_⟩
  · intro t ht
    interval_cases t <;> simp [balanceAt, sched1, withDeg, cfg1]
  · intro t ht
    interval_cases t <;> norm_num [sched1, withDeg, cfg1]
  · intro t ht
    interval_cases t <;> norm_num [sched1, withDeg, cfg1]
  · intro t ht
    interval_cases t <;> norm_num [sched1, withDeg, cfg1]

/-- Counterexample to C6 as stated: with d1 = d2 = 0 (so d1 ≤ d2) and a
flat price series at 10, both the zero schedule and a full charge-then-
discharge cycle are optimal, yet the second discharges 5 in total against
0 for the first, so the total discharge of an optimal solution under d2
does exceed that of an optimal solution under d1. -/
theorem spec_C6_counterexample :
    (0 : ℝ) ≤ 0 ∧
    IsOptimal 2 (withDeg cfg1 0) priceFlat zeroSched ∧
    IsOptimal 2 (withDeg cfg1 0) priceFlat sched1 ∧
    ¬ totalDischarge 2 sched1 ≤ totalDischarge 2 zeroSched := by
  refine ⟨le_rfl, ⟨?_, ?_⟩, ⟨sched1_feasible_two, ?_⟩, ?_⟩
  · exact zero_feasible 2 (withDeg cfg1 0) (by norm_num [withDeg, cfg1])
      (by norm_num [withDeg, cfg1])
  · intro y hy
    rw [zero_objective]
    exact flat_deg0_objective_nonpos y hy
  · intro y hy
    have hobj : objective 2 (withDeg cfg1 0) priceFlat sched1 = 0 := by
      simp [objective, Finset.sum_range_succ, sched1, priceFlat, withDeg, cfg1]
    rw [hobj]
    exact flat_deg0_objective_nonpos y hy
  · simp [totalDischarge, Finset.sum_range_succ, sched1, zeroSched]

/-- C7: the pipeline is a deterministic function of its configuration.
The noise and spike sequences are deterministic functions of the seed, so
two runs with the same seed see the same price series; and although the
solver may return different optimal schedules, any two optimal schedules
of the same program attain the same objective value, so two full runs
report identical objective values. -/
theorem spec_C7_determinism (nf sf : ℕ → ℕ → ℝ) (s1 s2 : ℕ) (H : ℕ)
    (cfg : Config) (x1 x2 : Schedule) (hseed : s1 = s2)
    (h1 : IsOptimal H cfg (runPriceSeries nf sf s1) x1)
    (h2 : IsOptimal H cfg (runPriceSeries nf sf s2) x2) :
    (∀ t, runPriceSeries nf sf s1 t = runPriceSeries nf sf s2 t) ∧
    objective H cfg (runPriceSeries nf sf s1) x1
      = objective H cfg (runPriceSeries nf sf s2) x2 := by
  subst hseed
  exact ⟨fun t => rfl, le_antisymm (h2.2 x1 h1.1) (h1.2 x2 h2.1)⟩

/-- A noise realisation that exactly cancels the diurnal base curve and
leaves a flat series at 10, for the determinism witness. -/
noncomputable def noiseFlat : ℕ → ℕ → ℝ :=
  fun _ t => 10 - basePrice t

/-- A spike realisation with no spikes. -/
def spikeNone : ℕ → ℕ → ℝ :=
  fun _ _ => 0

lemma runPriceSeries_flat (s t : ℕ) :
    runPriceSeries noiseFlat spikeNone s t = 10 := by
  unfold runPriceSeries genPrice noiseFlat spikeNone
  have h : basePrice t + (10 - basePrice t) + 0 = 10 := by ring
  rw [h]
  norm_num

lemma zero_optimal_flatSeed (s : ℕ) :
    IsOptimal 1 cfgFlat (runPriceSeries noiseFlat spikeNone s) zeroSched := by
  refine zero_optimal_of_deg_gt_spread 1 cfgFlat _ 10 10
    (by norm_num [cfgFlat]) (by norm_num [cfgFlat]) (by norm_num [cfgFlat])
    (by norm_num [cfgFlat]) (by norm_num) (fun t _ => ?_) (by norm_num [cfgFlat])
  rw [runPriceSeries_flat]
  exact ⟨le_rfl, le_rfl⟩

/-- Witness for C7 at seed 42 with a concrete noise realisation. -/
theorem spec_C7_determinism_witness :
    (∀ t, runPriceSeries noiseFlat spikeNone 42 t
      = runPriceSeries noiseFlat spikeNone 42 t) ∧
    objective 1 cfgFlat (runPriceSeries noiseFlat spikeNone 42) zeroSched
      = objective 1 cfgFlat (runPriceSeries noiseFlat spikeNone 42) zeroSched :=
  spec_C7_determinism noiseFlat spikeNone 42 42 1 cfgFlat zeroSched zeroSched rfl
    (zero_optimal_flatSeed 42) (zero_optimal_flatSeed 42)

/-- C9: every generated price is non-negative, for every realisation of
the noise and spike draws, because line 54 clamps the sum of base price,
noise and spike at zero. -/
theorem spec_C9_prices_nonneg (noise spike : ℕ → ℝ) (t : ℕ) :
    0 ≤ genPrice noise spike t :=
  le_max_right _ _

/-- A configuration that is invalid per the claimed validation rules:
its capacity is negative. -/
def badCfg : Config :=
  ⟨-1, 5, 1, 10⟩

lemma basePrice_zero : basePrice 0 = 20 := by
  unfold basePrice
  have h : (((0 % 24 : ℕ) : ℝ) - 6) * Real.pi / 12 = -(Real.pi / 2) := by
    norm_num
    ring
  rw [h, Real.sin_neg, Real.sin_pi_div_two]
  norm_num

/-- Counterexample to C8 as stated: for a configuration with capacity
-1 ≤ 0 the claim says no price series is generated and no model is built,
yet the source has no validation step: the constraint list of the model is
still built in full (4 constraints for a 3-hour horizon), and the price
formula still produces a value (20 at hour 0 with zero noise and spikes)
since price generation never reads the invalid fields. -/
theorem spec_C8_counterexample :
    badCfg.capacity ≤ 0 ∧
    (dispatchConstraints 3 badCfg zeroSched).length = 3 + 1 ∧
    genPrice (fun _ => 0) (fun _ => 0) 0 = 20 := by
  refine ⟨by norm_num [badCfg], by simp [dispatchConstraints], ?_⟩
  unfold genPrice
  rw [basePrice_zero]
  norm_num

/-- Amended C8: the engine performs no configuration validation and has no
ConfigurationError path; for every configuration, valid or invalid, the
dispatch model is built unconditionally, with exactly H+1 equality
constraints whose conjunction is the initial condition plus the balance
recurrence, and price generation proceeds independently of the
configuration fields; out-of-range values are prevented only by the UI
widget ranges. -/
theorem spec_C8_no_validation_amended (H : ℕ) (cfg : Config) (x : Schedule) :
    (dispatchConstraints H cfg x).length = H + 1 ∧
    ((∀ P, P ∈ dispatchConstraints H cfg x → P) ↔
      (x.soc 0 = 0 ∧ ∀ t, t < H → balanceAt cfg x t)) := by
  refine ⟨by simp [dispatchConstraints], ?_, ?_⟩
  · intro hall
    refine ⟨hall _ (List.mem_cons_self _ _), fun t ht => hall _ ?_⟩
    exact List.mem_cons_of_mem _ (List.mem_map.mpr ⟨t, List.mem_range.mpr ht, rfl⟩)
  · rintro ⟨h0, hb⟩ P hP
    rcases List.mem_cons.mp hP with h | h
    · rw [h]
      exact h0
    · obtain ⟨t, ht, rfl⟩ := List.mem_map.mp h
      exact hb t (List.mem_range.mp ht)

end BESS
